import Mathlib

/-!
# Verification of the `webserver` thread-pool library (`src/lib.rs`)

The repository implements a fixed-size thread pool:

* `ThreadPool::new(size)` asserts `size > 0`, creates one `mpsc` channel,
  wraps the receiver in `Arc<Mutex<...>>`, and spawns `size` `Worker`s with
  ids `0 .. size-1`, each `Worker` holding `Some(join_handle)`.
* `ThreadPool::execute(f)` boxes the closure and sends it through
  `self.sender.as_ref().unwrap().send(job).unwrap()`.
* Each worker thread loops: `let message = receiver.lock().unwrap().recv();`
  then matches `Ok(job) => job()` / `Err(_) => break`.
* `Drop for ThreadPool` first does `drop(self.sender.take())`, then for each
  worker in vector order does `worker.thread.take()` and `thread.join().unwrap()`.

This file embeds the library at two levels:

1. a *structural* model of the `ThreadPool` value and its three operations
   (`new`, `execute`, `drop`), with panics rendered as `Except.error`;
2. a *dynamic* small-step transition system for the running pool (the channel
   buffer, the sender end, the worker loops), used for the delivery, draining
   and ordering properties.

Jobs are `Box<dyn FnOnce() + Send>` in Rust — opaque single-shot closures.
The models track job *identity* only, as a natural number, which is exactly
what the delivery/ordering claims are about.
-/

/-- Identity of a job (`type Job = Box<dyn FnOnce() + Send + 'static>` in the
source; the boxed closure is opaque, so the model tracks identities). -/
abbrev Job := Nat

/-- `struct Worker { id: usize, thread: Option<thread::JoinHandle<()>> }`.
The join handle carries no data (`JoinHandle<()>`); the model keeps only
its presence, since `drop` takes it out with `Option::take`. -/
structure Worker where
  id : Nat
  thread : Option Unit
  deriving Repr, DecidableEq

/-- `Worker::new(id, receiver)` spawns the loop thread and returns
`Worker { id, thread: Some(thread) }`.  The spawned loop itself is modelled
by the dynamic transition system below; structurally a fresh worker holds
its id and a live handle. -/
def Worker.new (id : Nat) : Worker :=
  { id := id, thread := some () }

/-- The state of the `mpsc` channel created in `ThreadPool::new`: the FIFO
buffer of pending jobs, and whether the consumer end is still alive (the
workers hold it through `Arc<Mutex<Receiver>>`; `send` fails only once every
receiver clone has been dropped). -/
structure Channel where
  buffer : List Job
  receiverAlive : Bool
  deriving Repr, DecidableEq

/-- `struct ThreadPool { workers: Vec<Worker>, sender: Option<mpsc::Sender<Job>> }`.
The sender is zero-sized in the model: only its presence matters
(`execute` unwraps it, `drop` takes it). -/
structure ThreadPool where
  workers : List Worker
  sender : Option Unit
  deriving Repr, DecidableEq

/-- The message of the `assert!` in `ThreadPool::new`. -/
def poolSizeMsg : String := "ThreadPool should have size bigger than 0"

/-- `ThreadPool::new(size)`:
`assert!(size > 0, ...)` — a panic, modelled as `Except.error` —
then `mpsc::channel()`, then `size` workers built by `Worker::new(i, ...)`
for `i in 0..size`.  Returns the pool together with the fresh channel. -/
def ThreadPool.new (size : Nat) : Except String (ThreadPool × Channel) :=
  if size = 0 then
    .error poolSizeMsg
  else
    .ok ({ workers := (List.range size).map Worker.new, sender := some () },
         { buffer := [], receiverAlive := true })

/-- `ThreadPool::execute(f)`:
`self.sender.as_ref().unwrap()` panics when the sender was taken;
`.send(job)` fails (and the trailing `.unwrap()` panics) when every
receiver has been dropped; otherwise the job is appended to the channel's
FIFO buffer. -/
def ThreadPool.execute (tp : ThreadPool) (ch : Channel) (j : Job) :
    Except String Channel :=
  match tp.sender with
  | none => .error "called `Option::unwrap()` on a `None` value"
  | some _ =>
      if ch.receiverAlive then
        .ok { ch with buffer := ch.buffer ++ [j] }
      else
        .error "called `Result::unwrap()` on an `Err` value: SendError"

/-- Observable events of teardown, in order. -/
inductive TearEvent where
  | closeSender
  | joinWorker (id : Nat)
  deriving Repr, DecidableEq

/-- The loop of `Drop for ThreadPool`: for each worker in vector order,
`worker.thread.take()`, and if it was `Some`, `thread.join().unwrap()`.
`joinResult w` is the exit status of worker `w`'s thread (`Ok(())`, or the
panic payload when the thread panicked); `unwrap` on a panicked thread's
result itself panics, modelled as `Except.error`.  Returns the drained
worker list and the join events in the order they happened. -/
def joinAll (joinResult : Nat → Except String Unit) :
    List Worker → Except String (List Worker × List TearEvent)
  | [] => .ok ([], [])
  | w :: ws =>
    match w.thread with
    | none =>
        match joinAll joinResult ws with
        | .error e => .error e
        | .ok (ws', evs) => .ok ({ w with thread := none } :: ws', evs)
    | some _ =>
        match joinResult w.id with
        | .error e => .error e
        | .ok _ =>
            match joinAll joinResult ws with
            | .error e => .error e
            | .ok (ws', evs) =>
                .ok ({ w with thread := none } :: ws',
                     .joinWorker w.id :: evs)

/-- `Drop for ThreadPool`: first `drop(self.sender.take())` (the producer end
is closed), then join every worker in vector order.  On success it returns
the pool after teardown together with the ordered event trace. -/
def ThreadPool.drop (joinResult : Nat → Except String Unit) (tp : ThreadPool) :
    Except String (ThreadPool × List TearEvent) :=
  match joinAll joinResult tp.workers with
  | .error e => .error e
  | .ok (ws', evs) =>
      .ok ({ workers := ws', sender := none }, .closeSender :: evs)

/-- The pool is alive: it has been constructed and not yet dropped, so the
sender is present and the workers still hold the receiver. -/
def ThreadPoolAlive (tp : ThreadPool) (ch : Channel) : Prop :=
  tp.sender.isSome = true ∧ ch.receiverAlive = true

/-- **C3.** `ThreadPool::new(0)` panics with the construction-precondition
message, and for every `n ≥ 1`, `ThreadPool::new(n)` succeeds with exactly
`n` workers whose ids are `0 .. n-1` in order, each owning one spawned
thread handle. -/
theorem new_zero_panics_new_pos_succeeds (n : Nat) (hn : 1 ≤ n) :
    ThreadPool.new 0 = .error poolSizeMsg ∧
    ∃ tp ch, ThreadPool.new n = .ok (tp, ch) ∧
      tp.workers.length = n ∧
      tp.workers.map Worker.id = List.range n ∧
      ∀ w ∈ tp.workers, w.thread = some () := by
  refine ⟨rfl, ?_⟩
  refine ⟨{ workers := (List.range n).map Worker.new, sender := some () },
          { buffer := [], receiverAlive := true }, ?_, ?_, ?_, ?_⟩
  · have hne : n ≠ 0 := by omega
    simp [ThreadPool.new, hne]
  · simp
  · rw [List.map_map]
    have hcomp : Worker.id ∘ Worker.new = id := rfl
    rw [hcomp, List.map_id]
  · intro w hw
    simp only [List.mem_map] at hw
    obtain ⟨i, _, rfl⟩ := hw
    rfl

/-- Witness for C3 at `n = 4`. -/
theorem new_zero_panics_new_pos_succeeds_witness :
    1 ≤ 4 ∧
    (ThreadPool.new 0 = .error poolSizeMsg ∧
     ∃ tp ch, ThreadPool.new 4 = .ok (tp, ch) ∧
       tp.workers.length = 4 ∧
       tp.workers.map Worker.id = List.range 4 ∧
       ∀ w ∈ tp.workers, w.thread = some ()) :=
  ⟨by decide, new_zero_panics_new_pos_succeeds 4 (by decide)⟩

/-- Helper: when `joinAll` succeeds on a worker list whose threads are all
live, the join events are exactly the workers' ids in list order, and every
returned worker's handle has been taken. -/
theorem joinAll_ok_spec (jr : Nat → Except String Unit) :
    ∀ ws ws' evs, joinAll jr ws = .ok (ws', evs) →
      (∀ w ∈ ws, w.thread = some ()) →
      evs = ws.map (fun w => TearEvent.joinWorker w.id) ∧
      ∀ w ∈ ws', w.thread = none := by
  intro ws
  induction ws with
  | nil =>
      intro ws' evs hok _
      simp [joinAll] at hok
      obtain ⟨h1, h2⟩ := hok
      subst h1; subst h2
      simp
  | cons w ws ih =>
      intro ws' evs hok hall
      have hw : w.thread = some () := hall w (by simp)
      rw [joinAll, hw] at hok
      cases hjr : jr w.id with
      | error e => rw [hjr] at hok; cases hok
      | ok u =>
          rw [hjr] at hok
          cases hrec : joinAll jr ws with
          | error e => rw [hrec] at hok; cases hok
          | ok p =>
              obtain ⟨ws'', evs'⟩ := p
              rw [hrec] at hok
              simp only [Except.ok.injEq, Prod.mk.injEq] at hok
              obtain ⟨h1, h2⟩ := hok
              have := ih ws'' evs' hrec (fun x hx => hall x (by simp [hx]))
              subst h1; subst h2
              refine ⟨by simp [this.1], ?_⟩
              intro x hx
              rcases List.mem_cons.mp hx with h | h
              · subst h; rfl
              · exact this.2 x h

/-- Helper: `joinAll` succeeds exactly when every worker whose handle is
still present has a thread that exited normally. -/
theorem joinAll_ok_iff (jr : Nat → Except String Unit) :
    ∀ ws : List Worker, (∃ r, joinAll jr ws = .ok r) ↔
      (∀ w ∈ ws, w.thread.isSome = true → jr w.id = .ok ()) := by
  intro ws
  induction ws with
  | nil => simp [joinAll]
  | cons w ws ih =>
      cases hw : w.thread with
      | none =>
          constructor
          · intro ⟨r, hr⟩ x hx hsome
            rcases List.mem_cons.mp hx with h | h
            · subst h; rw [hw] at hsome; cases hsome
            · rw [joinAll, hw] at hr
              cases hrec : joinAll jr ws with
              | error e => rw [hrec] at hr; cases hr
              | ok p => exact (ih.mp ⟨p, hrec⟩) x h hsome
          · intro hall
            obtain ⟨⟨ws', evs⟩, hrec⟩ := ih.mpr (fun x hx => hall x (by simp [hx]))
            exact ⟨_, by rw [joinAll, hw, hrec]⟩
      | some u =>
          cases u
          constructor
          · intro ⟨r, hr⟩ x hx _
            rw [joinAll, hw] at hr
            cases hjr : jr w.id with
            | error e => rw [hjr] at hr; cases hr
            | ok v =>
                cases v
                rw [hjr] at hr
                rcases List.mem_cons.mp hx with h | h
                · subst h; exact hjr
                · cases hrec : joinAll jr ws with
                  | error e => rw [hrec] at hr; cases hr
                  | ok p => exact (ih.mp ⟨p, hrec⟩) x h (by assumption)
          · intro hall
            have hjr : jr w.id = .ok () := hall w (by simp) (by rw [hw]; rfl)
            obtain ⟨⟨ws', evs⟩, hrec⟩ := ih.mpr (fun x hx hx2 => hall x (by simp [hx]) hx2)
            exact ⟨_, by rw [joinAll, hw, hjr, hrec]⟩

/-- **C6.** While the pool is alive (sender present, receiver held by the
workers) — which is how `ThreadPool::new` returns it — every `execute`
call succeeds, appending the job to the channel buffer, and the pool stays
alive: no submission is silently dropped. -/
theorem alive_execute_enqueues (n : Nat) (tp : ThreadPool) (ch : Channel)
    (j : Job) (hn : 1 ≤ n) (halive : ThreadPoolAlive tp ch) :
    (∃ tp0 ch0, ThreadPool.new n = .ok (tp0, ch0) ∧ ThreadPoolAlive tp0 ch0) ∧
    ThreadPool.execute tp ch j = .ok { ch with buffer := ch.buffer ++ [j] } ∧
    ThreadPoolAlive tp { ch with buffer := ch.buffer ++ [j] } := by
  obtain ⟨hs, hr⟩ := halive
  have hne : n ≠ 0 := by omega
  refine ⟨⟨{ workers := (List.range n).map Worker.new, sender := some () },
           { buffer := [], receiverAlive := true },
           by simp [ThreadPool.new, hne], rfl, rfl⟩, ?_, hs, hr⟩
  cases htp : tp.sender with
  | none => rw [htp] at hs; cases hs
  | some u => simp [ThreadPool.execute, htp, hr]

/-- Witness for C6: a freshly built one-worker pool accepts job `7`. -/
theorem alive_execute_enqueues_witness :
    (1 ≤ 1 ∧
     ThreadPoolAlive ⟨[⟨0, some ()⟩], some ()⟩ ⟨[], true⟩) ∧
    ((∃ tp0 ch0, ThreadPool.new 1 = .ok (tp0, ch0) ∧ ThreadPoolAlive tp0 ch0) ∧
     ThreadPool.execute ⟨[⟨0, some ()⟩], some ()⟩ ⟨[], true⟩ 7 = .ok ⟨[7], true⟩ ∧
     ThreadPoolAlive ⟨[⟨0, some ()⟩], some ()⟩ ⟨[7], true⟩) :=
  ⟨⟨by decide, ⟨rfl, rfl⟩⟩,
   alive_execute_enqueues 1 ⟨[⟨0, some ()⟩], some ()⟩ ⟨[], true⟩ 7 (by decide) ⟨rfl, rfl⟩⟩

/-- **C8.** After teardown has begun (the `Drop` impl has taken the sender),
any `execute` call panics — `self.sender.as_ref().unwrap()` fails on `None` —
rather than silently discarding the task. -/
theorem execute_after_teardown_panics (jr : Nat → Except String Unit)
    (tp tp' : ThreadPool) (tr : List TearEvent)
    (hdrop : ThreadPool.drop jr tp = .ok (tp', tr)) :
    tp'.sender = none ∧
    ∀ ch j, ∃ e, ThreadPool.execute tp' ch j = .error e ∧
      ∀ ch', ThreadPool.execute tp' ch j ≠ .ok ch' := by
  rw [ThreadPool.drop] at hdrop
  cases hja : joinAll jr tp.workers with
  | error e => rw [hja] at hdrop; cases hdrop
  | ok p =>
      obtain ⟨ws', evs⟩ := p
      rw [hja] at hdrop
      simp only [Except.ok.injEq, Prod.mk.injEq] at hdrop
      obtain ⟨h1, h2⟩ := hdrop
      subst h1
      refine ⟨rfl, ?_⟩
      intro ch j
      exact ⟨_, rfl, by intro ch' h; cases h⟩

/-- Witness for C8: dropping a one-worker pool, then calling `execute`. -/
theorem execute_after_teardown_panics_witness :
    ThreadPool.drop (fun _ => .ok ()) ⟨[⟨0, some ()⟩], some ()⟩ =
      .ok (⟨[⟨0, none⟩], none⟩, [.closeSender, .joinWorker 0]) ∧
    ((⟨[⟨0, none⟩], none⟩ : ThreadPool).sender = none ∧
     ∀ ch j, ∃ e,
       ThreadPool.execute ⟨[⟨0, none⟩], none⟩ ch j = .error e ∧
       ∀ ch', ThreadPool.execute ⟨[⟨0, none⟩], none⟩ ch j ≠ .ok ch') :=
  ⟨rfl, execute_after_teardown_panics (fun _ => .ok ())
      ⟨[⟨0, some ()⟩], some ()⟩ ⟨[⟨0, none⟩], none⟩
      [.closeSender, .joinWorker 0] rfl⟩

/-- **C4.** Teardown of a pool built by `ThreadPool::new n` produces exactly
the trace: close the sender first, then join the workers in increasing id
order `0, 1, ..., n-1`; afterwards the sender is gone and every worker's
thread handle has been taken. -/
theorem teardown_sequence (n : Nat) (jr : Nat → Except String Unit)
    (tp tp' : ThreadPool) (ch : Channel) (tr : List TearEvent)
    (hnew : ThreadPool.new n = .ok (tp, ch))
    (hdrop : ThreadPool.drop jr tp = .ok (tp', tr)) :
    tr = TearEvent.closeSender :: (List.range n).map TearEvent.joinWorker ∧
    tp'.sender = none ∧
    ∀ w ∈ tp'.workers, w.thread = none := by
  have hne : tp.workers = (List.range n).map Worker.new := by
    rw [ThreadPool.new] at hnew
    by_cases h0 : n = 0
    · rw [if_pos h0] at hnew; cases hnew
    · rw [if_neg h0] at hnew
      simp only [Except.ok.injEq, Prod.mk.injEq] at hnew
      rw [← hnew.1]
  rw [ThreadPool.drop] at hdrop
  cases hja : joinAll jr tp.workers with
  | error e => rw [hja] at hdrop; cases hdrop
  | ok p =>
      obtain ⟨ws', evs⟩ := p
      rw [hja] at hdrop
      simp only [Except.ok.injEq, Prod.mk.injEq] at hdrop
      obtain ⟨h1, h2⟩ := hdrop
      have hall : ∀ w ∈ tp.workers, w.thread = some () := by
        intro w hw
        rw [hne] at hw
        simp only [List.mem_map] at hw
        obtain ⟨i, _, rfl⟩ := hw
        rfl
      obtain ⟨hevs, hnone⟩ := joinAll_ok_spec jr tp.workers ws' evs hja hall
      refine ⟨?_, by rw [← h1], ?_⟩
      · rw [← h2, hevs, hne, List.map_map]
        rfl
      · intro w hw
        rw [← h1] at hw
        exact hnone w hw

/-- Witness for C4 at `n = 2`. -/
theorem teardown_sequence_witness :
    ThreadPool.new 2 = .ok (⟨[⟨0, some ()⟩, ⟨1, some ()⟩], some ()⟩, ⟨[], true⟩) ∧
    ThreadPool.drop (fun _ => .ok ()) ⟨[⟨0, some ()⟩, ⟨1, some ()⟩], some ()⟩ =
      .ok (⟨[⟨0, none⟩, ⟨1, none⟩], none⟩,
           [.closeSender, .joinWorker 0, .joinWorker 1]) ∧
    ([TearEvent.closeSender, .joinWorker 0, .joinWorker 1] =
       TearEvent.closeSender :: (List.range 2).map TearEvent.joinWorker ∧
     (⟨[⟨0, none⟩, ⟨1, none⟩], none⟩ : ThreadPool).sender = none ∧
     ∀ w ∈ (⟨[⟨0, none⟩, ⟨1, none⟩], none⟩ : ThreadPool).workers,
       w.thread = none) :=
  ⟨rfl, rfl,
   teardown_sequence 2 (fun _ => .ok ())
     ⟨[⟨0, some ()⟩, ⟨1, some ()⟩], some ()⟩
     ⟨[⟨0, none⟩, ⟨1, none⟩], none⟩ ⟨[], true⟩
     [.closeSender, .joinWorker 0, .joinWorker 1] rfl rfl⟩

/-- **C10.** Teardown propagates worker-thread failure: `drop` joins every
remaining thread with `unwrap`, so it returns normally exactly when every
worker whose handle was still present exited normally; a panicked worker
thread makes the drop itself panic. -/
theorem drop_propagates_worker_panic (jr : Nat → Except String Unit)
    (tp : ThreadPool) :
    (∃ r, ThreadPool.drop jr tp = .ok r) ↔
    (∀ w ∈ tp.workers, w.thread.isSome = true → jr w.id = .ok ()) := by
  rw [← joinAll_ok_iff jr tp.workers]
  constructor
  · intro ⟨r, hr⟩
    rw [ThreadPool.drop] at hr
    cases hja : joinAll jr tp.workers with
    | error e => rw [hja] at hr; cases hr
    | ok p => exact ⟨p, rfl⟩
  · intro ⟨⟨ws', evs⟩, hja⟩
    exact ⟨_, by rw [ThreadPool.drop, hja]⟩

/-!
## Dynamic model: the running pool

The worker threads spawned in `Worker::new` run
`loop { let message = receiver.lock().unwrap().recv(); match message { ... } }`
concurrently with the submitting thread.  The model is a small-step
transition system over the channel/worker state; any interleaving of the
threads is a sequence of `Step`s.  One `dequeue` step is one loop iteration
that got `Ok(job)` and ran `job()` to completion: the mutex around the
receiver makes each `recv` atomic (pop of the FIFO head), and the worker is
sequential, so it takes no other step between its `recv` and the return of
`job()`.  `mpsc::recv` returns `Err(RecvError)` exactly when the buffer is
empty and every sender has been dropped, which is the `exitLoop` step.
-/

/-- Status of a worker thread: still in its receive-execute loop, or its
loop has ended (`break` after `Err(_)`). -/
inductive WStatus where
  | running
  | exited
  deriving Repr, DecidableEq

/-- Global state of the running system: the channel's FIFO buffer, whether
the producer end is still open, the jobs the submitting thread has not yet
passed to `execute`, the log of `(worker id, job)` executions in the order
they were dequeued, and each worker's loop status. -/
structure SysState where
  pending : List Job
  senderOpen : Bool
  toSubmit : List Job
  executed : List (Nat × Job)
  wstatus : Nat → WStatus

/-- Start of a run: pool just constructed (`ThreadPool::new`), channel
empty, sender open, all workers in their loops, `jobs` still to submit. -/
def initState (jobs : List Job) : SysState :=
  { pending := [], senderOpen := true, toSubmit := jobs,
    executed := [], wstatus := fun _ => WStatus.running }

/-- One interleaved step of the system with `n` workers.

* `submit`: the caller runs `ThreadPool::execute` on the next job; `send`
  appends it to the channel buffer (needs the sender, lines 66-73).
* `close`: `drop(self.sender.take())` at the start of `Drop` (line 78).
* `dequeue`: a running worker's `recv` returns `Ok(job)` — the mutex-guarded
  receiver atomically pops the FIFO head — and the worker runs `job()`
  (lines 22-29).
* `exitLoop`: a running worker's `recv` returns `Err(_)` — possible exactly
  when the buffer is empty and the sender is gone — and the worker `break`s
  (lines 30-33). -/
inductive Step (n : Nat) : SysState → SysState → Prop where
  | submit (s : SysState) (j : Job) (rest : List Job)
      (hts : s.toSubmit = j :: rest) (hopen : s.senderOpen = true) :
      Step n s { s with toSubmit := rest, pending := s.pending ++ [j] }
  | close (s : SysState) (hopen : s.senderOpen = true) :
      Step n s { s with senderOpen := false }
  | dequeue (s : SysState) (w : Nat) (j : Job) (rest : List Job)
      (hw : w < n) (hrun : s.wstatus w = WStatus.running)
      (hp : s.pending = j :: rest) :
      Step n s { s with pending := rest, executed := s.executed ++ [(w, j)] }
  | exitLoop (s : SysState) (w : Nat)
      (hw : w < n) (hrun : s.wstatus w = WStatus.running)
      (hclosed : s.senderOpen = false) (hp : s.pending = []) :
      Step n s
        { s with wstatus := fun x => if x = w then WStatus.exited else s.wstatus x }

/-- `s` is reachable in a run of the `n`-worker pool that intends to submit
`jobs`. -/
def Reach (n : Nat) (jobs : List Job) (s : SysState) : Prop :=
  Relation.ReflTransGen (Step n) (initState jobs) s

/-- Inductive invariant of every run.
`conserve`: the executed jobs, then the buffered jobs, then the unsubmitted
jobs, laid end to end, are exactly the original job list (so dequeue order
equals submission order and nothing is duplicated or lost).
`open_running`: while the sender is open no worker can have left its loop.
`done_drained`: once the sender is closed and every worker has left its
loop, the buffer is empty. -/
structure SysInv (n : Nat) (jobs : List Job) (s : SysState) : Prop where
  conserve : s.executed.map Prod.snd ++ s.pending ++ s.toSubmit = jobs
  open_running : s.senderOpen = true → ∀ w, w < n → s.wstatus w = WStatus.running
  done_drained : s.senderOpen = false →
    (∀ w, w < n → s.wstatus w = WStatus.exited) → s.pending = []

/-- The invariant is preserved by every step (for a pool with at least one
worker). -/
theorem SysInv.preserve {n : Nat} {jobs : List Job} (hn : 0 < n)
    {s s' : SysState} (hinv : SysInv n jobs s) (hstep : Step n s s') :
    SysInv n jobs s' := by
  cases hstep with
  | submit j rest hts hopen =>
      refine ⟨?_, ?_, ?_⟩
      · have hc := hinv.conserve
        rw [hts] at hc
        simpa [List.append_assoc] using hc
      · exact hinv.open_running
      · intro hcl _
        have hcl' : s.senderOpen = false := hcl
        rw [hopen] at hcl'
        exact Bool.noConfusion hcl'
  | close hopen =>
      refine ⟨hinv.conserve, ?_, ?_⟩
      · intro h
        have h' : (false : Bool) = true := h
        exact Bool.noConfusion h'
      · intro _ hex
        have h1 : s.wstatus 0 = WStatus.running := hinv.open_running hopen 0 hn
        have h2 : s.wstatus 0 = WStatus.exited := hex 0 hn
        rw [h1] at h2
        exact WStatus.noConfusion h2
  | dequeue w j rest hw hrun hp =>
      refine ⟨?_, ?_, ?_⟩
      · have hc := hinv.conserve
        rw [hp] at hc
        simpa [List.append_assoc] using hc
      · exact hinv.open_running
      · intro hcl hex
        have h2 : s.wstatus w = WStatus.exited := hex w hw
        rw [hrun] at h2
        exact WStatus.noConfusion h2
  | exitLoop w hw hrun hclosed hp =>
      refine ⟨hinv.conserve, ?_, fun _ _ => hp⟩
      intro h
      have h' : s.senderOpen = true := h
      rw [hclosed] at h'
      exact Bool.noConfusion h'

/-- Every reachable state satisfies the invariant. -/
theorem reach_inv {n : Nat} {jobs : List Job} (hn : 0 < n)
    {s : SysState} (h : Reach n jobs s) : SysInv n jobs s := by
  induction h with
  | refl =>
      refine ⟨by simp [initState], fun _ _ _ => rfl, ?_⟩
      intro hcl _
      have h' : (true : Bool) = false := hcl
      exact Bool.noConfusion h'
  | tail hr hstep ih => exact SysInv.preserve hn ih hstep

/-- **C1.** In any run of an `n`-worker pool (`n ≥ 1`) submitting the `k`
distinct tasks `0, ..., k-1`, once every task has been submitted and the
channel has drained, each task has been dequeued and executed exactly once,
and no task was executed by two different workers: every receive removes
the job from the single shared queue for exactly one worker. -/
theorem tasks_executed_exactly_once (n k : Nat) (s : SysState)
    (hn : 0 < n) (hreach : Reach n (List.range k) s)
    (hsub : s.toSubmit = []) (hdr : s.pending = []) :
    s.executed.map Prod.snd = List.range k ∧
    (∀ j, j < k → (s.executed.map Prod.snd).count j = 1) ∧
    (∀ j w1 w2, (w1, j) ∈ s.executed → (w2, j) ∈ s.executed → w1 = w2) := by
  have hinv := reach_inv hn hreach
  have hc := hinv.conserve
  rw [hsub, hdr] at hc
  simp only [List.append_nil] at hc
  refine ⟨hc, ?_, ?_⟩
  · intro j hj
    rw [hc]
    exact List.count_eq_one_of_mem (List.nodup_range k) (List.mem_range.mpr hj)
  · intro j w1 w2 h1 h2
    have hnd : (s.executed.map Prod.snd).Nodup := by
      rw [hc]; exact List.nodup_range k
    have heq := List.inj_on_of_nodup_map hnd h1 h2 rfl
    exact congrArg Prod.fst heq

/-- **C2.** When teardown has completed — the sender is closed and every
worker has left its loop (so all joins have returned) — the channel has
drained and every task that was submitted while the pool was alive appears
in the execution log: teardown never returns before all submitted tasks
have run. -/
theorem teardown_waits_for_all_tasks (n : Nat) (jobs : List Job) (s : SysState)
    (hn : 0 < n) (hreach : Reach n jobs s)
    (hclosed : s.senderOpen = false)
    (hexited : ∀ w, w < n → s.wstatus w = WStatus.exited) :
    s.pending = [] ∧
    s.executed.map Prod.snd ++ s.toSubmit = jobs ∧
    ∀ j ∈ jobs, j ∉ s.toSubmit → j ∈ s.executed.map Prod.snd := by
  have hinv := reach_inv hn hreach
  have hp := hinv.done_drained hclosed hexited
  have hc := hinv.conserve
  rw [hp] at hc
  simp only [List.append_nil] at hc
  refine ⟨hp, hc, ?_⟩
  intro j hj hnot
  rw [← hc] at hj
  rcases List.mem_append.mp hj with h | h
  · exact h
  · exact absurd h hnot

/-- **C7.** The channel is FIFO for a single submitting caller: in any
reachable state, the sequence of dequeued jobs is exactly an initial
segment `0, ..., m-1` of the submission sequence `0, ..., k-1` — so for two
tasks `t1 < t2` submitted in that order, `t2` is never dequeued unless `t1`
was dequeued before it. -/
theorem fifo_per_caller_order (n k : Nat) (s : SysState)
    (hn : 0 < n) (hreach : Reach n (List.range k) s) :
    ∃ m, m ≤ k ∧ s.executed.map Prod.snd = List.range m ∧
      ∀ t1 t2, t1 < t2 → t2 ∈ s.executed.map Prod.snd →
        t1 ∈ s.executed.map Prod.snd := by
  have hc := (reach_inv hn hreach).conserve
  have hassoc : s.executed.map Prod.snd ++ (s.pending ++ s.toSubmit)
      = List.range k := by
    rw [← List.append_assoc]; exact hc
  have hlen := congrArg List.length hassoc
  simp only [List.length_append, List.length_range] at hlen
  have hE : s.executed.map Prod.snd
      = List.range ((s.executed.map Prod.snd).length) := by
    have htake := List.take_left (s.executed.map Prod.snd)
      (s.pending ++ s.toSubmit)
    rw [hassoc, List.take_range, Nat.min_eq_left
      (by omega : (s.executed.map Prod.snd).length ≤ k)] at htake
    exact htake.symm
  refine ⟨(s.executed.map Prod.snd).length, by omega, hE, ?_⟩
  intro t1 t2 h12 h2
  rw [hE] at h2 ⊢
  exact List.mem_range.mpr (Nat.lt_trans h12 (List.mem_range.mp h2))

/-- **C5.** In every step of the system, a worker leaves its receive-execute
loop only when the receive reported the channel disconnected — the sender
dropped and the buffer drained; and any step in which a worker dequeues a
job leaves that worker in its loop (it runs the job synchronously and
iterates again).  The worker never exits while the channel is open. -/
theorem worker_exits_only_disconnected (n : Nat) (s s' : SysState) (w : Nat)
    (hstep : Step n s s') :
    ((s.wstatus w = WStatus.running ∧ s'.wstatus w = WStatus.exited) →
      s.senderOpen = false ∧ s.pending = []) ∧
    (∀ j, s'.executed = s.executed ++ [(w, j)] →
      s'.wstatus w = WStatus.running) := by
  cases hstep with
  | submit j rest hts hopen =>
      refine ⟨?_, ?_⟩
      · rintro ⟨h1, h2⟩
        have h2' : s.wstatus w = WStatus.exited := h2
        rw [h1] at h2'
        exact WStatus.noConfusion h2'
      · intro j' hj
        have hj' : s.executed = s.executed ++ [(w, j')] := hj
        have hl := congrArg List.length hj'
        rw [List.length_append] at hl
        simp at hl
  | close hopen =>
      refine ⟨?_, ?_⟩
      · rintro ⟨h1, h2⟩
        have h2' : s.wstatus w = WStatus.exited := h2
        rw [h1] at h2'
        exact WStatus.noConfusion h2'
      · intro j' hj
        have hj' : s.executed = s.executed ++ [(w, j')] := hj
        have hl := congrArg List.length hj'
        rw [List.length_append] at hl
        simp at hl
  | dequeue w0 j rest hw hrun hp =>
      refine ⟨?_, ?_⟩
      · rintro ⟨h1, h2⟩
        have h2' : s.wstatus w = WStatus.exited := h2
        rw [h1] at h2'
        exact WStatus.noConfusion h2'
      · intro j' hj
        have hj' : s.executed ++ [(w0, j)] = s.executed ++ [(w, j')] := hj
        have hpair : (w0, j) = (w, j') := by
          have := List.append_cancel_left hj'
          simpa using this
        have hw0 : w0 = w := congrArg Prod.fst hpair
        show s.wstatus w = WStatus.running
        rw [← hw0]
        exact hrun
  | exitLoop w0 hw hrun hclosed hp =>
      refine ⟨fun _ => ⟨hclosed, hp⟩, ?_⟩
      intro j' hj
      have hj' : s.executed = s.executed ++ [(w, j')] := hj
      have hl := congrArg List.length hj'
      rw [List.length_append] at hl
      simp at hl

/-- Final state of a one-worker run that submits and executes job `0`. -/
def runC1End : SysState :=
  { pending := [], senderOpen := true, toSubmit := [],
    executed := [(0, 0)], wstatus := fun _ => WStatus.running }

/-- Witness for C1: one worker, one job, submitted then dequeued. -/
theorem tasks_executed_exactly_once_witness :
    (0 < 1 ∧ Reach 1 (List.range 1) runC1End ∧
     runC1End.toSubmit = [] ∧ runC1End.pending = []) ∧
    (runC1End.executed.map Prod.snd = List.range 1 ∧
     (∀ j, j < 1 → (runC1End.executed.map Prod.snd).count j = 1) ∧
     (∀ j w1 w2, (w1, j) ∈ runC1End.executed → (w2, j) ∈ runC1End.executed →
       w1 = w2)) := by
  have h1 : Step 1 (initState (List.range 1))
      { pending := [0], senderOpen := true, toSubmit := [],
        executed := [], wstatus := fun _ => WStatus.running } :=
    Step.submit _ 0 [] (by decide) rfl
  have h2 : Step 1
      { pending := [0], senderOpen := true, toSubmit := [],
        executed := [], wstatus := fun _ => WStatus.running }
      runC1End :=
    Step.dequeue _ 0 0 [] (by decide) rfl rfl
  have hreach : Reach 1 (List.range 1) runC1End :=
    Relation.ReflTransGen.tail
      (Relation.ReflTransGen.tail Relation.ReflTransGen.refl h1) h2
  exact ⟨⟨by decide, hreach, rfl, rfl⟩,
    tasks_executed_exactly_once 1 1 runC1End (by decide) hreach rfl rfl⟩

/-- Final state of a full run and teardown with the single job `3`. -/
def runC2End : SysState :=
  { pending := [], senderOpen := false, toSubmit := [],
    executed := [(0, 3)],
    wstatus := fun x => if x = 0 then WStatus.exited else WStatus.running }

/-- Witness for C2: submit job `3`, worker 0 dequeues and runs it, the
sender is closed, worker 0 observes the disconnect and exits. -/
theorem teardown_waits_for_all_tasks_witness :
    (0 < 1 ∧ Reach 1 [3] runC2End ∧ runC2End.senderOpen = false ∧
     (∀ w, w < 1 → runC2End.wstatus w = WStatus.exited)) ∧
    (runC2End.pending = [] ∧
     runC2End.executed.map Prod.snd ++ runC2End.toSubmit = [3] ∧
     ∀ j ∈ [3], j ∉ runC2End.toSubmit →
       j ∈ runC2End.executed.map Prod.snd) := by
  have h1 : Step 1 (initState [3])
      { pending := [3], senderOpen := true, toSubmit := [],
        executed := [], wstatus := fun _ => WStatus.running } :=
    Step.submit _ 3 [] rfl rfl
  have h2 : Step 1
      { pending := [3], senderOpen := true, toSubmit := [],
        executed := [], wstatus := fun _ => WStatus.running }
      { pending := [], senderOpen := true, toSubmit := [],
        executed := [(0, 3)], wstatus := fun _ => WStatus.running } :=
    Step.dequeue _ 0 3 [] (by decide) rfl rfl
  have h3 : Step 1
      { pending := [], senderOpen := true, toSubmit := [],
        executed := [(0, 3)], wstatus := fun _ => WStatus.running }
      { pending := [], senderOpen := false, toSubmit := [],
        executed := [(0, 3)], wstatus := fun _ => WStatus.running } :=
    Step.close _ rfl
  have h4 : Step 1
      { pending := [], senderOpen := false, toSubmit := [],
        executed := [(0, 3)], wstatus := fun _ => WStatus.running }
      runC2End :=
    Step.exitLoop _ 0 (by decide) rfl rfl rfl
  have hreach : Reach 1 [3] runC2End :=
    Relation.ReflTransGen.tail
      (Relation.ReflTransGen.tail
        (Relation.ReflTransGen.tail
          (Relation.ReflTransGen.tail Relation.ReflTransGen.refl h1) h2) h3) h4
  exact ⟨⟨by decide, hreach, rfl, by decide⟩,
    teardown_waits_for_all_tasks 1 [3] runC2End (by decide) hreach rfl
      (by decide)⟩

/-- Mid-run state: jobs `0` and `1` submitted in order, worker 0 has
dequeued job `0`, job `1` still buffered. -/
def runC7End : SysState :=
  { pending := [1], senderOpen := true, toSubmit := [],
    executed := [(0, 0)], wstatus := fun _ => WStatus.running }

/-- Witness for C7: two sequential submissions; the dequeue log is the
initial segment `[0]` of the submission order. -/
theorem fifo_per_caller_order_witness :
    (0 < 1 ∧ Reach 1 (List.range 2) runC7End) ∧
    (∃ m, m ≤ 2 ∧ runC7End.executed.map Prod.snd = List.range m ∧
      ∀ t1 t2, t1 < t2 → t2 ∈ runC7End.executed.map Prod.snd →
        t1 ∈ runC7End.executed.map Prod.snd) := by
  have h1 : Step 1 (initState (List.range 2))
      { pending := [0], senderOpen := true, toSubmit := [1],
        executed := [], wstatus := fun _ => WStatus.running } :=
    Step.submit _ 0 [1] (by decide) rfl
  have h2 : Step 1
      { pending := [0], senderOpen := true, toSubmit := [1],
        executed := [], wstatus := fun _ => WStatus.running }
      { pending := [0, 1], senderOpen := true, toSubmit := [],
        executed := [], wstatus := fun _ => WStatus.running } :=
    Step.submit _ 1 [] rfl rfl
  have h3 : Step 1
      { pending := [0, 1], senderOpen := true, toSubmit := [],
        executed := [], wstatus := fun _ => WStatus.running }
      runC7End :=
    Step.dequeue _ 0 0 [1] (by decide) rfl rfl
  have hreach : Reach 1 (List.range 2) runC7End :=
    Relation.ReflTransGen.tail
      (Relation.ReflTransGen.tail
        (Relation.ReflTransGen.tail Relation.ReflTransGen.refl h1) h2) h3
  exact ⟨⟨by decide, hreach⟩,
    fifo_per_caller_order 1 2 runC7End (by decide) hreach⟩

/-- A state with one idle worker, sender closed, buffer drained. -/
def wExitS : SysState :=
  { pending := [], senderOpen := false, toSubmit := [],
    executed := [], wstatus := fun _ => WStatus.running }

/-- `wExitS` after worker 0 observes the disconnect and leaves its loop. -/
def wExitT : SysState :=
  { wExitS with
    wstatus := fun x => if x = 0 then WStatus.exited else wExitS.wstatus x }

/-- Witness for C5: the disconnect step of worker 0 out of `wExitS`. -/
theorem worker_exits_only_disconnected_witness :
    Step 1 wExitS wExitT ∧
    (((wExitS.wstatus 0 = WStatus.running ∧
       wExitT.wstatus 0 = WStatus.exited) →
        wExitS.senderOpen = false ∧ wExitS.pending = []) ∧
     (∀ j, wExitT.executed = wExitS.executed ++ [(0, j)] →
       wExitT.wstatus 0 = WStatus.running)) := by
  have hstep : Step 1 wExitS wExitT :=
    Step.exitLoop wExitS 0 (by decide) rfl rfl rfl
  exact ⟨hstep, worker_exits_only_disconnected 1 wExitS wExitT 0 hstep⟩

/-!
## Lock discipline of one loop iteration

In `let message = receiver.lock().unwrap().recv();` (line 22) the
`MutexGuard` returned by `lock()` is a temporary of the `let` initializer
expression, so Rust drops it at the end of that statement — the mutex is
released before the `match` on line 24 runs `job()`.  (The variant
`while let Ok(job) = receiver.lock().unwrap().recv() { job(); }` would
instead hold the guard for the whole body; this code does not do that.)
-/

/-- Outcome of `receiver.lock().unwrap().recv()`: `Ok(job)`, or
`Err(RecvError)` once the channel is disconnected. -/
inductive RecvOutcome where
  | okJob (j : Job)
  | errDisconnected
  deriving Repr, DecidableEq

/-- Micro-events of one iteration of the worker loop. -/
inductive MicroOp where
  | lockAcquire
  | recvFromChannel
  | lockRelease
  | runJob (j : Job)
  | breakLoop
  deriving Repr, DecidableEq

/-- The micro-event trace of one iteration of the loop in `Worker::new`
(lines 21-35), given the outcome of the receive: `receiver.lock().unwrap()`
acquires the mutex, `.recv()` receives while holding it, the temporary
guard is dropped at the end of the `let` statement, and only then does the
`match` run the job (`Ok` arm) or `break` (`Err` arm). -/
def iterTrace (m : RecvOutcome) : List MicroOp :=
  [MicroOp.lockAcquire, MicroOp.recvFromChannel, MicroOp.lockRelease] ++
    (match m with
     | RecvOutcome.okJob j => [MicroOp.runJob j]
     | RecvOutcome.errDisconnected => [MicroOp.breakLoop])

/-- `true` when every `runJob` in the trace happens while the mutex is not
held (`h` counts the lock depth at the start of the trace). -/
def runsOutsideLock : List MicroOp → Nat → Bool
  | [], _ => true
  | MicroOp.lockAcquire :: r, h => runsOutsideLock r (h + 1)
  | MicroOp.lockRelease :: r, h => runsOutsideLock r (h - 1)
  | MicroOp.recvFromChannel :: r, h => runsOutsideLock r h
  | MicroOp.breakLoop :: r, h => runsOutsideLock r h
  | MicroOp.runJob _ :: r, h => (h == 0) && runsOutsideLock r h

/-- `true` when every `recvFromChannel` in the trace happens with the mutex
held. -/
def recvInsideLock : List MicroOp → Nat → Bool
  | [], _ => true
  | MicroOp.lockAcquire :: r, h => recvInsideLock r (h + 1)
  | MicroOp.lockRelease :: r, h => recvInsideLock r (h - 1)
  | MicroOp.recvFromChannel :: r, h => (h != 0) && recvInsideLock r h
  | MicroOp.breakLoop :: r, h => recvInsideLock r h
  | MicroOp.runJob _ :: r, h => recvInsideLock r h

/-- **C9.** In every iteration of the worker loop the mutex is acquired and
released entirely within the receive step: the receive happens under the
lock, and the dequeued job runs only after the lock is released, so a
long-running job never blocks the other workers' receives. -/
theorem job_runs_with_lock_released (m : RecvOutcome) :
    runsOutsideLock (iterTrace m) 0 = true ∧
    recvInsideLock (iterTrace m) 0 = true := by
  cases m <;> exact ⟨rfl, rfl⟩
